import Mathlib

/-!
Verification of the RAG (retrieval-augmented generation) MCP core:
chunking (`app/rag/chunking.py`), Q&A extraction and source-label
derivation (`app/rag/file_handle.py`), retrieval orchestration
(`app/rag/retrieval.py`, `app/mcp/rag_mcp.py`).

Python strings are modelled as Lean `String`/`List Char`; Python `int`
as `Int`; JSON values produced by `json.loads` as the inductive `Json`
below; exceptions as `Except`; third-party collaborators (pypdf page
extraction, the two LangChain text splitters, the vector store, the
event loop's timeout) as explicit function/outcome parameters.
-/

/-- Python `\s` on the ASCII range: the whitespace class used by
`re.sub(r"\s+", " ", ...)` and by `str.strip()`. -/
def isPySpace (c : Char) : Bool :=
  c = ' ' || c = '\t' || c = '\n' || c = '\r' || c = '\x0b' || c = '\x0c'

/-- `chunk.replace("\n", " ")`. -/
def replaceNl (l : List Char) : List Char :=
  l.map (fun c => if c = '\n' then ' ' else c)

/-- `re.sub(r"\s+", " ", ...)`: every maximal run of whitespace becomes a
single space character. -/
def collapseWS : List Char → List Char
  | [] => []
  | c :: cs =>
    if isPySpace c then ' ' :: collapseWS (cs.dropWhile isPySpace)
    else c :: collapseWS cs
termination_by l => l.length
decreasing_by
  · exact Nat.lt_succ_of_le (List.dropWhile_suffix _).sublist.length_le
  · exact Nat.lt_succ_self _

/-- Python `str.strip()` (no argument): drop whitespace from both ends. -/
def pyStrip (l : List Char) : List Char :=
  ((l.dropWhile isPySpace).reverse.dropWhile isPySpace).reverse

/-- `str.strip()` on `String`. -/
def pyStripStr (s : String) : String :=
  ⟨pyStrip s.data⟩

/-- The normalization the PDF and Markdown chunkers apply to every chunk:
`re.sub(r"\s+", " ", chunk.replace("\n", " ")).strip()`. -/
def normalizeChunk (s : String) : String :=
  ⟨pyStrip (collapseWS (replaceNl s.data))⟩

/-- The `metadata` dict attached to every chunk. -/
structure Metadata where
  source : String
  location : String
  tag : String
deriving DecidableEq, Repr

/-- One `{"text": ..., "metadata": {...}}` chunk dict. -/
structure Chunk where
  text : String
  metadata : Metadata
deriving DecidableEq, Repr

/-- The clamp in `rag_mcp.retrieval`:
`k = int((k + 20 - abs(k-20)) / 2) if k > 0 else 1`.
For positive `k` the dividend `k + 20 - |k - 20|` equals `2 * min k 20`,
an even non-negative integer, so Python's float true-division and `int()`
truncation are exact and agree with integer division by 2. -/
def effective_k (k : Int) : Int :=
  if k > 0 then (k + 20 - (k - 20).natAbs) / 2 else 1

/-- C1: the effective k reaching the vector store is 1 for k ≤ 0, k for
0 < k ≤ 20 and 20 for k > 20; for positive k the arithmetic form equals
`min k 20`. -/
theorem effective_k_clamp (k : Int) :
    (k ≤ 0 → effective_k k = 1) ∧
    (0 < k → k ≤ 20 → effective_k k = k) ∧
    (20 < k → effective_k k = 20) ∧
    (0 < k → effective_k k = min k 20) := by
  unfold effective_k
  have hmin : min k 20 = if k ≤ 20 then k else 20 := min_def k 20
  refine ⟨fun h => ?_, fun h1 h2 => ?_, fun h => ?_, fun h => ?_⟩
  · split_ifs <;> omega
  · split_ifs <;> omega
  · split_ifs <;> omega
  · rw [hmin]; split_ifs <;> omega

/-- C1 witness: the clamp evaluated at -3, 5, 25 and 7. -/
theorem effective_k_clamp_witness :
    effective_k (-3) = 1 ∧ effective_k 5 = 5 ∧
    effective_k 25 = 20 ∧ effective_k 7 = min 7 20 :=
  ⟨(effective_k_clamp (-3)).1 (by decide),
   (effective_k_clamp 5).2.1 (by decide) (by decide),
   (effective_k_clamp 25).2.2.1 (by decide),
   (effective_k_clamp 7).2.2.2 (by decide)⟩

/-- JSON values as produced by `json.loads` (`app/rag/chunking.py`,
`chunking_json`). Object keys are unique after parsing (later duplicates
overwrite earlier ones), so an object is an association list with
distinct keys. Numbers are modelled as integers; no claim involves
non-integer numerics. -/
inductive Json where
  | str (s : String)
  | num (n : Int)
  | bool (b : Bool)
  | null
  | arr (items : List Json)
  | obj (fields : List (String × Json))

/-- Python truthiness (`not q`) of a JSON-loaded value: `""`, `0`,
`False`, `None`, `[]` and the empty dict are falsy. -/
def pyFalsy : Json → Bool
  | .str s => s = ""
  | .num n => n = 0
  | .bool b => !b
  | .null => true
  | .arr items => items.isEmpty
  | .obj fields => fields.isEmpty

/-- Python `repr` of a JSON-loaded value, used by `str` on containers.
String contents are rendered between single quotes without escape
handling; every theorem below applies `pyStr` to plain string values
only, where `pyStr` is exact. -/
def pyRepr : Json → String
  | .str s => "'" ++ s ++ "'"
  | .num n => toString n
  | .bool b => if b then "True" else "False"
  | .null => "None"
  | .arr items =>
      "[" ++
        String.intercalate ", " (items.attach.map (fun x => pyRepr x.1)) ++
      "]"
  | .obj fields =>
      "\x7b" ++
        String.intercalate ", "
          (fields.attach.map (fun f => "'" ++ f.1.1 ++ "': " ++ pyRepr f.1.2)) ++
      "\x7d"
decreasing_by
  · have := List.sizeOf_lt_of_mem x.2
    simp_wf
    omega
  · have h1 := List.sizeOf_lt_of_mem f.2
    have h2 : sizeOf f.1.2 < sizeOf f.1 := by
      obtain ⟨a, b⟩ := f.1
      simp
    simp_wf
    omega

/-- Python `str` of a JSON-loaded value (`str(q)` in `extract_qa`). -/
def pyStr : Json → String
  | .str s => s
  | v => pyRepr v

/-- The literal element order of the Python set display
`QUESTION_KEYS = {"question", "q", "query"}` (`app/rag/file_handle.py`).
The source stores these keys in a `set`, whose iteration order is
hash-determined and (for strings) randomized per process, not the literal
order; functions below therefore take the iteration order as a parameter
constrained to be a permutation of this list. -/
def QUESTION_KEYS : List String := ["question", "q", "query"]

/-- The literal element order of `ANSWER_KEYS = {"answer", "a", "response"}`;
same caveat as for `QUESTION_KEYS`. -/
def ANSWER_KEYS : List String := ["answer", "a", "response"]

/-- `next((item[k] for k in keys if k in item), None)`: the value of the
first key (in the given iteration order) present in the dict. -/
def firstKey (keys : List String) (item : List (String × Json)) : Option Json :=
  match keys with
  | [] => none
  | k :: ks =>
    match item.lookup k with
    | some v => some v
    | none => firstKey ks item

/-- `extract_qa` (`app/rag/file_handle.py`), parametrized by the iteration
orders of the two key sets: pick the first present question key and answer
key; if either is missing or its raw value is falsy, return `None`; else
return `(str(q).strip(), str(a).strip())`. -/
def extract_qa (qKeys aKeys : List String) (item : List (String × Json)) :
    Option (String × String) :=
  match firstKey qKeys item, firstKey aKeys item with
  | some qv, some av =>
      if pyFalsy qv || pyFalsy av then none
      else some (pyStripStr (pyStr qv), pyStripStr (pyStr av))
  | _, _ => none

/-- `os.path.basename` on a POSIX path: the part after the last `/`. -/
def basename (p : String) : String :=
  ⟨(p.data.reverse.takeWhile (fun c => c ≠ '/')).reverse⟩

/-- Split a character list at the first occurrence of `sep`:
`some (before, after)` when `sep` occurs, `none` otherwise.
Models `str.split(sep, 1)` (which yields two parts exactly when
`sep` occurs). -/
def splitFirst : List Char → Char → Option (List Char × List Char)
  | [], _ => none
  | c :: cs, sep =>
    if c = sep then some ([], cs)
    else (splitFirst cs sep).map (fun p => (c :: p.1, p.2))

/-- Errors raised by the embedded Python code. -/
inductive PyError where
  | valueError (msg : String)
  | indexError
deriving DecidableEq, Repr

/-- `extract_source_from_url` (`app/rag/file_handle.py`):
`os.path.basename(urlparse(url).path).split(".", 1)[1]`. The argument is
the URL's path component (`urlparse(url).path`); when the basename has no
`.`, `split(".", 1)` yields a single part and the `[1]` lookup raises
`IndexError`. -/
def extract_source_from_url (path : String) : Except PyError String :=
  match splitFirst (basename path).data '.' with
  | some p => .ok ⟨p.2⟩
  | none => .error .indexError

/-- One page of `chunking_pdf`'s loop (`app/rag/chunking.py`): skip pages
whose extracted text is empty (falsy), otherwise split the page text and
emit one normalized chunk per split piece, with 1-indexed page location.
`pypdf`'s per-page `extract_text()` results are the `pages` input and the
`RecursiveCharacterTextSplitter` (configured with the chunk size/overlap)
is the `splitText` parameter, both being third-party collaborators. -/
def pdfLoop (splitText : String → List String) (tag source : String) :
    List String → Nat → List Chunk
  | [], _ => []
  | text :: rest, pageIdx =>
    let tail := pdfLoop splitText tag source rest (pageIdx + 1)
    if text = "" then tail
    else
      ((splitText text).map (fun chunk =>
        { text := normalizeChunk chunk,
          metadata :=
            { source := source,
              location := "Page " ++ toString (pageIdx + 1),
              tag := tag } })) ++ tail

/-- `chunking_pdf` (`app/rag/chunking.py`): `enumerate(reader.pages)`
starts at page index 0. -/
def chunking_pdf (splitText : String → List String) (pages : List String)
    (tag source : String) : List Chunk :=
  pdfLoop splitText tag source pages 0

/-- One section produced by the third-party `MarkdownHeaderTextSplitter`:
its body text and the h1–h4 heading metadata (absent levels are `none`). -/
structure MdDoc where
  page_content : String
  h1 : Option String
  h2 : Option String
  h3 : Option String
  h4 : Option String

/-- The heading-breadcrumb location of `chunking_md`:
`" > ".join([h for h in [h1, h2, h3, h4] if h])` — absent (`None`) and
empty-string headers are dropped by the truthiness test. -/
def mdLocation (d : MdDoc) : String :=
  String.intercalate " > "
    (([d.h1, d.h2, d.h3, d.h4].filterMap id).filter (fun h => h ≠ ""))

/-- `chunking_md` (`app/rag/chunking.py`): split the decoded file text on
headers (third-party `headerSplit`), strip each section body and skip it
when empty, then split each remaining body (`splitText`) and emit
normalized chunks with the breadcrumb location (or `"ROOT"` when the
breadcrumb is empty, via Python's `location or "ROOT"`). -/
def chunking_md (headerSplit : String → List MdDoc)
    (splitText : String → List String) (fileText : String)
    (tag source : String) : List Chunk :=
  (headerSplit fileText).flatMap (fun doc =>
    let sectionText := pyStripStr doc.page_content
    if sectionText = "" then []
    else
      (splitText sectionText).map (fun chunk =>
        { text := normalizeChunk chunk,
          metadata :=
            { source := source,
              location := if mdLocation doc = "" then "ROOT" else mdLocation doc,
              tag := tag } }))

/-- The top-level shape dispatch of `chunking_json`: a dict with a `"qa"`
key holding a list contributes that list; any other dict is a single
item; a list is taken as is; any other shape raises
`ValueError("JSON must be dict or list[dict]")`. -/
def itemsOf : Json → Except PyError (List Json)
  | .obj fields =>
    match fields.lookup "qa" with
    | some (.arr l) => .ok l
    | _ => .ok [.obj fields]
  | .arr l => .ok l
  | _ => .error (.valueError "JSON must be dict or list[dict]")

/-- The per-item step of `chunking_json`'s loop: non-dict items and items
whose Q&A extraction fails are skipped. -/
def validItem (qKeys aKeys : List String) : Json → Option (String × String)
  | .obj fields => extract_qa qKeys aKeys fields
  | _ => none

/-- The item loop of `chunking_json`: `enumerate(items, start=1)` keeps
counting over skipped items, so locations carry the 1-based original
position. -/
def qaLoop (qKeys aKeys : List String) (tag source : String) :
    List Json → Nat → List Chunk
  | [], _ => []
  | item :: rest, idx =>
    let tail := qaLoop qKeys aKeys tag source rest (idx + 1)
    match validItem qKeys aKeys item with
    | some qa =>
      { text := "Question: " ++ qa.1 ++ "\nAnswer: " ++ qa.2,
        metadata :=
          { source := source,
            location := "Q&A #" ++ toString idx,
            tag := tag } } :: tail
    | none => tail

/-- `chunking_json` (`app/rag/chunking.py`). Its input is the result of
`json.loads(file_bytes.decode("utf-8"))`, modelled as
`Except String Json` (the parser and decoder are standard library);
a parse failure is re-raised as `ValueError("Invalid JSON file: ...")`.
When the item loop produces no chunk, the call fails with
`ValueError("No valid Q&A found in JSON")`. -/
def chunking_json (qKeys aKeys : List String) (jsonData : Except String Json)
    (tag source : String) : Except PyError (List Chunk) :=
  match jsonData with
  | .error e => .error (.valueError ("Invalid JSON file: " ++ e))
  | .ok data =>
    match itemsOf data with
    | .error err => .error err
    | .ok items =>
      let documents := qaLoop qKeys aKeys tag source items 1
      if documents.isEmpty then
        .error (.valueError "No valid Q&A found in JSON")
      else .ok documents

/-- Python `str.endswith`: the argument is a suffix of the string. -/
def pyEndsWith (s tail : String) : Bool :=
  tail.data.isSuffixOf s.data

/-- `chunking_file` (`app/rag/chunking.py`), after the URL fetch
(`read_file_from_url`, whose result determines the `pages`, `fileText`
and `jsonData` inputs of the individual chunkers). The source-label
derivation runs first and its `IndexError` propagates; then dispatch is
by path suffix. In the unsupported-suffix branch the source evaluates
`ValueError("Unsupport this type of file")` WITHOUT `raise`, so the
Python function returns `None` there: the result is
`Except PyError (Option (List Chunk))` and that branch is `.ok none`. -/
def chunking_file (splitText : String → List String)
    (headerSplit : String → List MdDoc) (pages : List String)
    (fileText : String) (jsonData : Except String Json)
    (qKeys aKeys : List String) (tag file_path : String) :
    Except PyError (Option (List Chunk)) :=
  match extract_source_from_url file_path with
  | .error e => .error e
  | .ok source =>
    if pyEndsWith file_path ".pdf" then
      .ok (some (chunking_pdf splitText pages tag source))
    else if pyEndsWith file_path ".md" then
      .ok (some (chunking_md headerSplit splitText fileText tag source))
    else if pyEndsWith file_path ".json" then
      match chunking_json qKeys aKeys jsonData tag source with
      | .error e => .error e
      | .ok docs => .ok (some docs)
    else
      .ok none

/-- A LangChain `Document` as returned by the vector store's
`similarity_search`. -/
structure Document where
  page_content : String
  metadata : Metadata
deriving DecidableEq, Repr

/-- Metadata field lookup by name, for the store-side filter dict. -/
def metaGet (m : Metadata) : String → Option String
  | "source" => some m.source
  | "location" => some m.location
  | "tag" => some m.tag
  | _ => none

/-- A document matches a filter dict when every filter entry equals the
corresponding stored metadata field; a `none` filter matches everything. -/
def matchesFilter (filter : Option (List (String × String))) (d : Document) :
    Bool :=
  match filter with
  | none => true
  | some kvs => kvs.all (fun kv => metaGet d.metadata kv.1 == some kv.2)

/-- Modelled from the spec: the vector-store similarity-search primitive
(`TiDBVectorStore.similarity_search` is a third-party adapter, not under
`src/`; spec §6 describes it as "a similarity-search primitive taking
(query_vector, k, optional equality filter on a metadata field) returning
up to k nearest entries"). `entries` are the stored documents, `rank` is
the store's similarity ordering (drawing from the candidates it is
given), and the optional filter restricts candidates by metadata
equality before the top `k` are returned. -/
def similarity_search (entries : List Document)
    (rank : String → List Document → List Document) (query : String)
    (k : Int) (filter : Option (List (String × String))) : List Document :=
  (rank query (entries.filter (matchesFilter filter))).take k.toNat

/-- `filter_dict = {"tag": tag} if tag is not None else None`
(`app/rag/retrieval.py`). -/
def tagFilter : Option String → Option (List (String × String))
  | some t => some [("tag", t)]
  | none => none

/-- `retrieve_relevant_documents` (`app/rag/retrieval.py`): run the
store's similarity search with the optional tag filter and shape each
returned document into a `{"text", "metadata"}` dict. The store call is
the `search` parameter. -/
def retrieve_relevant_documents
    (search : String → Int → Option (List (String × String)) → List Document)
    (query : String) (k : Int) (tag : Option String) : List Chunk :=
  (search query k (tagFilter tag)).map (fun item =>
    { text := item.page_content, metadata := item.metadata })

/-- The MCP `retrieval` tool (`app/mcp/rag_mcp.py`): clamp `k`, then
await the search under `asyncio.wait_for(..., timeout=5.0)`; the
5-second timeout outcome is modelled by the `timedOut` flag, and on
timeout the `asyncio.TimeoutError` handler substitutes `[]`. -/
def retrieval
    (search : String → Int → Option (List (String × String)) → List Document)
    (timedOut : Bool) (query : String) (k : Int) (tag : Option String) :
    List Chunk :=
  let k2 := effective_k k
  if timedOut then []
  else retrieve_relevant_documents search query k2 tag

/-- C2: the retrieval entry point converts a timeout of the underlying
similarity search into an empty list, and on success returns exactly the
ordered `text`/`metadata` pairs produced by the search (with the clamped
k and the tag filter). -/
theorem retrieval_timeout_policy
    (search : String → Int → Option (List (String × String)) → List Document)
    (query : String) (k : Int) (tag : Option String) :
    retrieval search true query k tag = [] ∧
    retrieval search false query k tag =
      (search query (effective_k k) (tagFilter tag)).map (fun item =>
        { text := item.page_content, metadata := item.metadata }) :=
  ⟨rfl, rfl⟩

/-- C4: on an unsupported suffix, `chunking_file` does not fail — the
source constructs `ValueError("Unsupport this type of file")` without
`raise`, so the function falls through and returns `None` (here
`.ok none`): the input `"file.txt"` produces no error. -/
theorem chunking_file_unsupported_suffix_returns_none :
    chunking_file (fun _ => []) (fun _ => []) [] "" (.error "bad")
      QUESTION_KEYS ANSWER_KEYS "docs" "file.txt" = .ok none := by
  rfl

/-- Helper: `splitFirst` finds nothing when the separator is absent. -/
theorem splitFirst_eq_none {sep : Char} :
    ∀ {l : List Char}, sep ∉ l → splitFirst l sep = none
  | [], _ => rfl
  | c :: cs, h => by
    have hc : ¬(c = sep) := fun hcs => h (hcs ▸ List.mem_cons_self c cs)
    have hcs : sep ∉ cs := fun hm => h (List.mem_cons_of_mem c hm)
    simp [splitFirst, hc, splitFirst_eq_none hcs]

/-- Helper: `splitFirst` splits at the first separator occurrence. -/
theorem splitFirst_append {sep : Char} :
    ∀ {l₁ : List Char}, sep ∉ l₁ → ∀ l₂ : List Char,
      splitFirst (l₁ ++ sep :: l₂) sep = some (l₁, l₂)
  | [], _, l₂ => by simp [splitFirst]
  | c :: cs, h, l₂ => by
    have hc : ¬(c = sep) := fun hcs => h (hcs ▸ List.mem_cons_self c cs)
    have hcs : sep ∉ cs := fun hm => h (List.mem_cons_of_mem c hm)
    simp [splitFirst, hc, splitFirst_append hcs l₂]

/-- C9: when the path's basename contains a `.`, the derived source label
is everything after the FIRST `.` — the part up to and including the
first dot is stripped. -/
theorem extract_source_strips_through_first_dot
    (path pre post : String)
    (hb : (basename path).data = pre.data ++ '.' :: post.data)
    (hpre : '.' ∉ pre.data) :
    extract_source_from_url path = .ok post := by
  unfold extract_source_from_url
  rw [hb, splitFirst_append hpre]

/-- C9 witness: `"report.final.pdf"` yields source `"final.pdf"`. -/
theorem extract_source_strips_through_first_dot_witness :
    (basename "report.final.pdf").data =
        ("report" : String).data ++ '.' :: ("final.pdf" : String).data ∧
    '.' ∉ ("report" : String).data ∧
    extract_source_from_url "report.final.pdf" = .ok "final.pdf" :=
  ⟨by decide, by decide,
   extract_source_strips_through_first_dot "report.final.pdf" "report"
     "final.pdf" (by decide) (by decide)⟩

/-- C10: when the path's basename contains no `.`, the `[1]` lookup on
the one-element split result is out of bounds (`IndexError`), and
`chunking_file` propagates that error before any chunker runs, whatever
the chunkers would have produced. -/
theorem extract_source_no_dot_fails
    (path : String) (h : '.' ∉ (basename path).data)
    (splitText : String → List String)
    (headerSplit : String → List MdDoc) (pages : List String)
    (fileText : String) (jsonData : Except String Json)
    (qKeys aKeys : List String) (tag : String) :
    extract_source_from_url path = .error .indexError ∧
    chunking_file splitText headerSplit pages fileText jsonData
      qKeys aKeys tag path = .error .indexError := by
  have hsrc : extract_source_from_url path = .error .indexError := by
    unfold extract_source_from_url
    rw [splitFirst_eq_none h]
  refine ⟨hsrc, ?_⟩
  unfold chunking_file
  rw [hsrc]

/-- C10 witness: ingesting the extension-less path `"/data/readme"`
fails with the index error. -/
theorem extract_source_no_dot_fails_witness :
    '.' ∉ (basename "/data/readme").data ∧
    extract_source_from_url "/data/readme" = .error .indexError ∧
    chunking_file (fun _ => []) (fun _ => []) [] "" (.error "bad")
      QUESTION_KEYS ANSWER_KEYS "docs" "/data/readme" =
        .error .indexError :=
  ⟨by decide,
   (extract_source_no_dot_fails "/data/readme" (by decide) (fun _ => [])
      (fun _ => []) [] "" (.error "bad") QUESTION_KEYS ANSWER_KEYS "docs").1,
   (extract_source_no_dot_fails "/data/readme" (by decide) (fun _ => [])
      (fun _ => []) [] "" (.error "bad") QUESTION_KEYS ANSWER_KEYS "docs").2⟩

/-- C5 counterexample: `["q", "question", "query"]` is a possible
iteration order of the set `{"question", "q", "query"}` (it is a
permutation of its elements), and under it an item carrying both
`"question"` and `"q"` keys yields the `"q"` value, not the `"question"`
value that the claimed fixed priority order produces. -/
theorem extract_qa_order_counterexample :
    ["q", "question", "query"].Perm QUESTION_KEYS ∧
    extract_qa ["q", "question", "query"] ANSWER_KEYS
        [("question", .str "A"), ("q", .str "B"), ("answer", .str "C")] ≠
      extract_qa QUESTION_KEYS ANSWER_KEYS
        [("question", .str "A"), ("q", .str "B"), ("answer", .str "C")] :=
  ⟨by decide, by decide⟩

/-- The keys of `keys` that are present in the dict, in `keys` order. -/
def keysPresent (keys : List String) (item : List (String × Json)) :
    List String :=
  keys.filter (fun k => (item.lookup k).isSome)

/-- Helper: `firstKey` finds nothing iff no key is present. -/
theorem firstKey_eq_none_iff (keys : List String)
    (item : List (String × Json)) :
    firstKey keys item = none ↔ keysPresent keys item = [] := by
  induction keys with
  | nil => simp [firstKey, keysPresent]
  | cons k ks ih =>
    unfold firstKey keysPresent
    rw [List.filter_cons]
    cases h : item.lookup k with
    | some v => simp [h]
    | none => simpa [h, keysPresent] using ih

/-- Helper: when exactly one key of `keys` is present in the dict,
`firstKey` returns that key's value, independently of the order of
`keys`. -/
theorem firstKey_eq_of_single (keys : List String)
    (item : List (String × Json)) (k0 : String)
    (h : keysPresent keys item = [k0]) :
    firstKey keys item = item.lookup k0 := by
  induction keys with
  | nil => simp [keysPresent] at h
  | cons k ks ih =>
    unfold keysPresent at h
    rw [List.filter_cons] at h
    unfold firstKey
    cases hk : item.lookup k with
    | some v =>
      simp only [hk, Option.isSome_some, if_pos] at h ⊢
      have hkk : k = k0 := by
        simpa using congrArg (fun l => l.head?) h
      rw [← hkk, hk]
    | none =>
      simp only [hk, Option.isSome_none, Bool.false_eq_true, if_neg] at h ⊢
      exact ih (by simpa [keysPresent] using h)

/-- Helper: `firstKey` is invariant under permuting the key list as long
as at most one of the keys is present in the dict. -/
theorem firstKey_perm (ord keys : List String)
    (item : List (String × Json)) (hperm : ord.Perm keys)
    (h1 : (keysPresent keys item).length ≤ 1) :
    firstKey ord item = firstKey keys item := by
  have hfilt : (keysPresent ord item).Perm (keysPresent keys item) :=
    hperm.filter _
  cases hk : keysPresent keys item with
  | nil =>
    have ho : keysPresent ord item = [] :=
      List.perm_nil.mp (hk ▸ hfilt)
    rw [(firstKey_eq_none_iff ord item).2 ho,
      (firstKey_eq_none_iff keys item).2 hk]
  | cons k0 rest =>
    cases rest with
    | cons k1 r2 => simp [hk] at h1
    | nil =>
      have ho : keysPresent ord item = [k0] :=
        List.Perm.eq_singleton (hk ▸ hfilt)
      rw [firstKey_eq_of_single ord item k0 ho,
        firstKey_eq_of_single keys item k0 hk]

/-- C5 amended: the question (resp. answer) is the value of the first
present key in the SET ITERATION ORDER over `{"question", "q", "query"}`
(resp. `{"answer", "a", "response"}`), which is hash-determined rather
than a fixed priority; whenever the item contains at most one key from
each set, the extraction agrees with the literal-order reading (and is
thus order-independent), but with several keys present the winner
depends on the set order. -/
theorem extract_qa_set_order (qOrd aOrd : List String)
    (hq : qOrd.Perm QUESTION_KEYS) (ha : aOrd.Perm ANSWER_KEYS)
    (item : List (String × Json))
    (hq1 : (keysPresent QUESTION_KEYS item).length ≤ 1)
    (ha1 : (keysPresent ANSWER_KEYS item).length ≤ 1) :
    extract_qa qOrd aOrd item = extract_qa QUESTION_KEYS ANSWER_KEYS item := by
  unfold extract_qa
  rw [firstKey_perm qOrd QUESTION_KEYS item hq hq1,
    firstKey_perm aOrd ANSWER_KEYS item ha ha1]

/-- C5 amended witness: an item with a single question key `"q"` and a
single answer key `"a"` extracts the same pair under the iteration order
`["query", "question", "q"]` / `["response", "answer", "a"]` as under
the literal order. -/
theorem extract_qa_set_order_witness :
    ["query", "question", "q"].Perm QUESTION_KEYS ∧
    ["response", "answer", "a"].Perm ANSWER_KEYS ∧
    (keysPresent QUESTION_KEYS
      [("q", .str " hi "), ("a", .str "yo")]).length ≤ 1 ∧
    (keysPresent ANSWER_KEYS
      [("q", .str " hi "), ("a", .str "yo")]).length ≤ 1 ∧
    extract_qa ["query", "question", "q"] ["response", "answer", "a"]
        [("q", .str " hi "), ("a", .str "yo")] =
      extract_qa QUESTION_KEYS ANSWER_KEYS
        [("q", .str " hi "), ("a", .str "yo")] :=
  ⟨by decide, by decide, by decide, by decide,
   extract_qa_set_order ["query", "question", "q"]
     ["response", "answer", "a"] (by decide) (by decide)
     [("q", .str " hi "), ("a", .str "yo")] (by decide) (by decide)⟩

/-- Helper: when every item is skipped, the Q&A loop emits nothing. -/
theorem qaLoop_eq_nil (qKeys aKeys : List String) (tag source : String) :
    ∀ (items : List Json) (idx : Nat),
      (∀ it ∈ items, validItem qKeys aKeys it = none) →
      qaLoop qKeys aKeys tag source items idx = []
  | [], _, _ => rfl
  | item :: rest, idx, h => by
    have hhd : validItem qKeys aKeys item = none :=
      h item (List.mem_cons_self item rest)
    have htl := qaLoop_eq_nil qKeys aKeys tag source rest (idx + 1)
      (fun it hit => h it (List.mem_cons_of_mem item hit))
    simp [qaLoop, hhd, htl]

/-- C7: a structured Q&A input whose items all fail extraction makes
`chunking_json` fail with `ValueError("No valid Q&A found in JSON")`
instead of returning an empty chunk list. -/
theorem chunking_json_no_valid_items (qKeys aKeys : List String)
    (data : Json) (items : List Json) (tag source : String)
    (h1 : itemsOf data = .ok items)
    (h2 : ∀ it ∈ items, validItem qKeys aKeys it = none) :
    chunking_json qKeys aKeys (.ok data) tag source =
      .error (.valueError "No valid Q&A found in JSON") := by
  simp [chunking_json, h1, qaLoop_eq_nil qKeys aKeys tag source items 1 h2]

/-- C7 witness: the input `{"qa": [{}]}` fails with the format error. -/
theorem chunking_json_no_valid_items_witness :
    itemsOf (.obj [("qa", .arr [.obj []])]) = .ok [.obj []] ∧
    (∀ it ∈ [Json.obj []], validItem QUESTION_KEYS ANSWER_KEYS it = none) ∧
    chunking_json QUESTION_KEYS ANSWER_KEYS
        (.ok (.obj [("qa", .arr [.obj []])])) "t" "s" =
      .error (.valueError "No valid Q&A found in JSON") :=
  ⟨rfl, by decide,
   chunking_json_no_valid_items QUESTION_KEYS ANSWER_KEYS
     (.obj [("qa", .arr [.obj []])]) [.obj []] "t" "s" rfl (by decide)⟩

/-- Helper: the Q&A loop numbers chunks by the 1-based position of the
item in the ORIGINAL item list, counting skipped items too. -/
theorem qaLoop_eq_enumFrom (qKeys aKeys : List String) (tag source : String) :
    ∀ (items : List Json) (idx : Nat),
      qaLoop qKeys aKeys tag source items idx =
        (items.enumFrom idx).filterMap (fun p =>
          (validItem qKeys aKeys p.2).map (fun qa =>
            { text := "Question: " ++ qa.1 ++ "\nAnswer: " ++ qa.2,
              metadata :=
                { source := source,
                  location := "Q&A #" ++ toString p.1,
                  tag := tag } }))
  | [], _ => rfl
  | item :: rest, idx => by
    have ih := qaLoop_eq_enumFrom qKeys aKeys tag source rest (idx + 1)
    cases hv : validItem qKeys aKeys item with
    | none => simp [qaLoop, hv, ih]
    | some qa => simp [qaLoop, hv, ih]

/-- C8: every successful `chunking_json` run emits exactly one chunk per
valid item, with text `"Question: {q}\nAnswer: {a}"` and location
`"Q&A #{n}"`, where n is the item's 1-based position among ALL input
items, skipped ones included. -/
theorem chunking_json_positions (qKeys aKeys : List String)
    (data : Json) (items : List Json) (tag source : String)
    (docs : List Chunk)
    (h1 : itemsOf data = .ok items)
    (h2 : chunking_json qKeys aKeys (.ok data) tag source = .ok docs) :
    docs =
      (items.enumFrom 1).filterMap (fun p =>
        (validItem qKeys aKeys p.2).map (fun qa =>
          { text := "Question: " ++ qa.1 ++ "\nAnswer: " ++ qa.2,
            metadata :=
              { source := source,
                location := "Q&A #" ++ toString p.1,
                tag := tag } })) := by
  simp only [chunking_json, h1] at h2
  rw [← qaLoop_eq_enumFrom qKeys aKeys tag source items 1]
  by_cases he : (qaLoop qKeys aKeys tag source items 1).isEmpty = true
  · rw [if_pos he] at h2
    cases h2
  · rw [if_neg he] at h2
    cases h2
    rfl

/-- C8 witness: `{"qa": [{"question": "Q1", "answer": "A1"},
{"q": "Q2"}]}` yields exactly one chunk, for the first item, with the
formatted text and location `"Q&A #1"`. -/
theorem chunking_json_positions_witness :
    itemsOf (.obj [("qa", .arr
        [.obj [("question", .str "Q1"), ("answer", .str "A1")],
         .obj [("q", .str "Q2")]])]) =
      .ok [.obj [("question", .str "Q1"), ("answer", .str "A1")],
           .obj [("q", .str "Q2")]] ∧
    chunking_json QUESTION_KEYS ANSWER_KEYS
        (.ok (.obj [("qa", .arr
          [.obj [("question", .str "Q1"), ("answer", .str "A1")],
           .obj [("q", .str "Q2")]])])) "t" "s" =
      .ok [{ text := "Question: Q1\nAnswer: A1",
             metadata := { source := "s", location := "Q&A #1", tag := "t" } }] ∧
    [{ text := "Question: Q1\nAnswer: A1",
       metadata :=
         { source := "s", location := "Q&A #1", tag := "t" } : Chunk }] =
      (([.obj [("question", .str "Q1"), ("answer", .str "A1")],
         .obj [("q", .str "Q2")]] : List Json).enumFrom 1).filterMap
        (fun p => (validItem QUESTION_KEYS ANSWER_KEYS p.2).map (fun qa =>
          { text := "Question: " ++ qa.1 ++ "\nAnswer: " ++ qa.2,
            metadata :=
              { source := "s",
                location := "Q&A #" ++ toString p.1,
                tag := "t" } })) :=
  ⟨rfl, rfl,
   chunking_json_positions QUESTION_KEYS ANSWER_KEYS
     (.obj [("qa", .arr
       [.obj [("question", .str "Q1"), ("answer", .str "A1")],
        .obj [("q", .str "Q2")]])])
     [.obj [("question", .str "Q1"), ("answer", .str "A1")],
      .obj [("q", .str "Q2")]] "t" "s"
     [{ text := "Question: Q1\nAnswer: A1",
        metadata := { source := "s", location := "Q&A #1", tag := "t" } }]
     rfl rfl⟩

/-- C6: with `tag = some t` the retrieval call only ever returns chunks
whose stored tag EXACTLY equals `t` (string equality, via the
`{"tag": t}` equality filter handed to the store); with `tag = none` no
restriction is applied — the result is the plain top-k of the ranked,
unfiltered entries. `rank` is the store's similarity ordering and is
only assumed to return documents drawn from its candidate input. -/
theorem retrieval_tag_exact_filter
    (entries : List Document)
    (rank : String → List Document → List Document)
    (hrank : ∀ q l, ∀ d ∈ rank q l, d ∈ l)
    (query : String) (k : Int) (t : String) :
    (∀ ch ∈ retrieve_relevant_documents (similarity_search entries rank)
        query k (some t), ch.metadata.tag = t) ∧
    retrieve_relevant_documents (similarity_search entries rank)
        query k none =
      ((rank query entries).take k.toNat).map (fun d =>
        { text := d.page_content, metadata := d.metadata }) := by
  constructor
  · intro ch hch
    unfold retrieve_relevant_documents similarity_search at hch
    obtain ⟨d, hd, hchd⟩ := List.mem_map.mp hch
    have hd2 : d ∈ rank query
        (entries.filter (matchesFilter (tagFilter (some t)))) :=
      List.mem_of_mem_take hd
    have hd3 := hrank _ _ _ hd2
    have hd4 := (List.mem_filter.mp hd3).2
    have htag : metaGet d.metadata "tag" == some t := by
      simpa [matchesFilter, tagFilter] using hd4
    have : d.metadata.tag = t := by
      simpa [metaGet] using htag
    rw [← hchd]
    exact this
  · unfold retrieve_relevant_documents similarity_search
    have hnone : matchesFilter none = fun _ : Document => true := rfl
    rw [tagFilter, hnone, List.filter_true]

/-- C6 witness: with entries tagged "A" and "B" and the identity
ranking, querying with tag "A" returns only "A"-tagged chunks, and
querying without a tag returns the shaped top-k of everything. -/
theorem retrieval_tag_exact_filter_witness :
    (∀ ch ∈ retrieve_relevant_documents
        (similarity_search
          [{ page_content := "da",
             metadata := { source := "s", location := "l", tag := "A" } },
           { page_content := "db",
             metadata := { source := "s", location := "l", tag := "B" } }]
          (fun _ l => l))
        "hello" 5 (some "A"), ch.metadata.tag = "A") ∧
    retrieve_relevant_documents
        (similarity_search
          [{ page_content := "da",
             metadata := { source := "s", location := "l", tag := "A" } },
           { page_content := "db",
             metadata := { source := "s", location := "l", tag := "B" } }]
          (fun _ l => l))
        "hello" 5 none =
      (([{ page_content := "da",
           metadata := { source := "s", location := "l", tag := "A" } },
         { page_content := "db",
           metadata := { source := "s", location := "l", tag := "B" } }] :
            List Document).take (Int.toNat 5)).map (fun d =>
        { text := d.page_content, metadata := d.metadata }) :=
  retrieval_tag_exact_filter
    [{ page_content := "da",
       metadata := { source := "s", location := "l", tag := "A" } },
     { page_content := "db",
       metadata := { source := "s", location := "l", tag := "B" } }]
    (fun _ l => l) (fun _ _ _ hd => hd) "hello" 5 "A"

/-- Helper: an element that fails the predicate survives `dropWhile`. -/
theorem mem_dropWhile_of_not {p : Char → Bool} {c : Char}
    (hc : p c = false) :
    ∀ {l : List Char}, c ∈ l → c ∈ l.dropWhile p
  | d :: ds, h => by
    by_cases hd : p d
    · rw [List.dropWhile_cons_of_pos hd]
      rcases List.mem_cons.mp h with h' | h'
      · rw [h'] at hc; rw [hc] at hd; cases hd
      · exact mem_dropWhile_of_not hc h'
    · rwa [List.dropWhile_cons_of_neg hd]

/-- Helper: the head of a non-empty `dropWhile` result fails the
predicate. -/
theorem dropWhile_head_not {p : Char → Bool} :
    ∀ {l : List Char} {d : Char} {ds : List Char},
      l.dropWhile p = d :: ds → p d = false
  | [], _, _, h => by cases h
  | e :: es, d, ds, h => by
    by_cases he : p e
    · rw [List.dropWhile_cons_of_pos he] at h
      exact dropWhile_head_not h
    · rw [List.dropWhile_cons_of_neg he] at h
      cases h
      exact Bool.of_not_eq_true he

/-- Helper: every character of the whitespace-collapsed list is a space
or comes from the input. -/
theorem collapseWS_mem {c : Char} :
    ∀ {l : List Char}, c ∈ collapseWS l → c = ' ' ∨ c ∈ l := by
  intro l
  induction l using collapseWS.induct with
  | case1 => intro h; rw [collapseWS] at h; cases h
  | case2 d ds hd ih =>
    intro h
    rw [collapseWS, if_pos hd] at h
    rcases List.mem_cons.mp h with h' | h'
    · exact Or.inl h'
    · rcases ih h' with h'' | h''
      · exact Or.inl h''
      · exact Or.inr (List.mem_cons_of_mem d
          ((List.dropWhile_suffix isPySpace).subset h''))
  | case3 d ds hd ih =>
    intro h
    rw [collapseWS, if_neg hd] at h
    rcases List.mem_cons.mp h with h' | h'
    · exact Or.inr (h' ▸ List.mem_cons_self d ds)
    · rcases ih h' with h'' | h''
      · exact Or.inl h''
      · exact Or.inr (List.mem_cons_of_mem d h'')

/-- Helper: a non-whitespace character of the input survives whitespace
collapsing. -/
theorem mem_collapseWS {c : Char} (hc : isPySpace c = false) :
    ∀ {l : List Char}, c ∈ l → c ∈ collapseWS l := by
  intro l
  induction l using collapseWS.induct with
  | case1 => intro h; cases h
  | case2 d ds hd ih =>
    intro h
    rw [collapseWS, if_pos hd]
    rcases List.mem_cons.mp h with h' | h'
    · rw [h'] at hc; rw [hc] at hd; cases hd
    · exact List.mem_cons_of_mem ' ' (ih (mem_dropWhile_of_not hc h'))
  | case3 d ds hd ih =>
    intro h
    rw [collapseWS, if_neg hd]
    rcases List.mem_cons.mp h with h' | h'
    · exact h' ▸ List.mem_cons_self d _
    · exact List.mem_cons_of_mem d (ih h')

/-- No two adjacent characters are both spaces. -/
def noTwoSpaces (l : List Char) : Prop :=
  l.Chain' (fun a b => ¬(a = ' ' ∧ b = ' '))

/-- Helper: the head of the collapsed tail after a whitespace run is not
whitespace. -/
theorem collapseWS_dropWhile_head {cs : List Char} {d : Char}
    (h : (collapseWS (cs.dropWhile isPySpace)).head? = some d) :
    isPySpace d = false := by
  cases hdw : cs.dropWhile isPySpace with
  | nil => rw [hdw, collapseWS] at h; cases h
  | cons e es =>
    have he : isPySpace e = false := dropWhile_head_not hdw
    rw [hdw, collapseWS, if_neg (by simp [he])] at h
    cases h
    exact he

/-- Helper: whitespace collapsing never produces two adjacent spaces. -/
theorem collapseWS_chain' : ∀ l : List Char, noTwoSpaces (collapseWS l) := by
  intro l
  induction l using collapseWS.induct with
  | case1 => rw [collapseWS]; exact List.chain'_nil
  | case2 d ds hd ih =>
    rw [collapseWS, if_pos hd]
    refine List.chain'_cons'.mpr ⟨?_, ih⟩
    intro b hb
    have hbns : isPySpace b = false := collapseWS_dropWhile_head hb
    intro hcon
    rw [hcon.2] at hbns
    simp [isPySpace] at hbns
  | case3 d ds hd ih =>
    rw [collapseWS, if_neg hd]
    refine List.chain'_cons'.mpr ⟨?_, ih⟩
    intro b _
    intro hcon
    rw [hcon.1] at hd
    simp [isPySpace] at hd

/-- Helper: stripping yields a contiguous piece of the input. -/
theorem pyStrip_piece (l : List Char) : pyStrip l <:+: l := by
  have h1 : l.dropWhile isPySpace <:+ l := List.dropWhile_suffix _
  have h2 : (l.dropWhile isPySpace).reverse.dropWhile isPySpace <:+
      (l.dropWhile isPySpace).reverse := List.dropWhile_suffix _
  have h3 : pyStrip l <+: l.dropWhile isPySpace := by
    have := List.reverse_prefix.mpr h2
    rwa [List.reverse_reverse] at this
  exact h3.isInfix.trans h1.isInfix

/-- Helper: no two adjacent spaces survives stripping. -/
theorem pyStrip_chain' {l : List Char} (h : noTwoSpaces l) :
    noTwoSpaces (pyStrip l) :=
  h.infix (pyStrip_piece l)

/-- Helper: a non-whitespace member of the input survives stripping. -/
theorem mem_pyStrip {c : Char} (hc : isPySpace c = false)
    {l : List Char} (h : c ∈ l) : c ∈ pyStrip l := by
  unfold pyStrip
  rw [List.mem_reverse]
  exact mem_dropWhile_of_not hc
    (List.mem_reverse.mpr (mem_dropWhile_of_not hc h))

/-- The normalized-text invariant of spec §3/§8: non-empty, no newline,
no run of two or more consecutive spaces. -/
def goodText (t : String) : Prop :=
  t ≠ "" ∧ (∀ c ∈ t.data, c ≠ '\n') ∧ noTwoSpaces t.data

/-- Helper: the chunk normalization yields a good text whenever the raw
chunk contains at least one non-whitespace character. -/
theorem normalizeChunk_good (s : String)
    (h : ∃ c ∈ s.data, isPySpace c = false) :
    goodText (normalizeChunk s) := by
  obtain ⟨c, hcmem, hcns⟩ := h
  have hcnl : c ≠ '\n' := by
    intro hh
    rw [hh] at hcns
    simp [isPySpace] at hcns
  have hc1 : c ∈ replaceNl s.data :=
    List.mem_map.mpr ⟨c, hcmem, by simp [hcnl]⟩
  have hc2 : c ∈ collapseWS (replaceNl s.data) := mem_collapseWS hcns hc1
  have hc3 : c ∈ pyStrip (collapseWS (replaceNl s.data)) :=
    mem_pyStrip hcns hc2
  refine ⟨?_, ?_, ?_⟩
  · intro he
    have hdata : pyStrip (collapseWS (replaceNl s.data)) = [] :=
      congrArg String.data he
    rw [hdata] at hc3
    cases hc3
  · intro d hd hdn
    subst hdn
    have hd1 : '\n' ∈ collapseWS (replaceNl s.data) :=
      (pyStrip_piece _).sublist.subset hd
    rcases collapseWS_mem hd1 with h' | h'
    · cases h'
    · obtain ⟨e, _, hee⟩ := List.mem_map.mp h'
      by_cases he2 : e = '\n' <;> simp [he2] at hee
  · exact pyStrip_chain' (collapseWS_chain' _)

/-- Helper: every chunk text the PDF loop emits is the normalization of
some splitter output. -/
theorem pdfLoop_text (splitText : String → List String)
    (tag source : String) :
    ∀ (pages : List String) (idx : Nat) (ch : Chunk),
      ch ∈ pdfLoop splitText tag source pages idx →
      ∃ s c, c ∈ splitText s ∧ ch.text = normalizeChunk c
  | [], _, ch, h => absurd h (List.not_mem_nil ch)
  | text :: rest, idx, ch, h => by
    simp only [pdfLoop] at h
    by_cases ht : text = ""
    · rw [if_pos ht] at h
      exact pdfLoop_text splitText tag source rest (idx + 1) ch h
    · rw [if_neg ht] at h
      rcases List.mem_append.mp h with h' | h'
      · obtain ⟨cnk, hcnk, hch⟩ := List.mem_map.mp h'
        exact ⟨text, cnk, hcnk, by rw [← hch]⟩
      · exact pdfLoop_text splitText tag source rest (idx + 1) ch h'

/-- Helper: every chunk text the Markdown chunker emits is the
normalization of some splitter output. -/
theorem chunking_md_text (headerSplit : String → List MdDoc)
    (splitText : String → List String) (fileText tag source : String)
    (ch : Chunk)
    (h : ch ∈ chunking_md headerSplit splitText fileText tag source) :
    ∃ s c, c ∈ splitText s ∧ ch.text = normalizeChunk c := by
  unfold chunking_md at h
  obtain ⟨doc, _, hch⟩ := List.mem_flatMap.mp h
  dsimp only at hch
  by_cases hs : pyStripStr doc.page_content = ""
  · rw [if_pos hs] at hch
    cases hch
  · rw [if_neg hs] at hch
    obtain ⟨cnk, hcnk, hcheq⟩ := List.mem_map.mp hch
    exact ⟨pyStripStr doc.page_content, cnk, hcnk, by rw [← hcheq]⟩

/-- Helper: every chunk text the Q&A loop emits has the
`"Question: ...\nAnswer: ..."` shape. -/
theorem qaLoop_text (qKeys aKeys : List String) (tag source : String) :
    ∀ (items : List Json) (idx : Nat) (ch : Chunk),
      ch ∈ qaLoop qKeys aKeys tag source items idx →
      ∃ q a, ch.text = "Question: " ++ q ++ "\nAnswer: " ++ a
  | [], _, ch, h => absurd h (List.not_mem_nil ch)
  | item :: rest, idx, ch, h => by
    simp only [qaLoop] at h
    cases hv : validItem qKeys aKeys item with
    | none =>
      rw [hv] at h
      exact qaLoop_text qKeys aKeys tag source rest (idx + 1) ch h
    | some qa =>
      rw [hv] at h
      rcases List.mem_cons.mp h with h' | h'
      · exact ⟨qa.1, qa.2, by rw [h']⟩
      · exact qaLoop_text qKeys aKeys tag source rest (idx + 1) ch h'

/-- Helper: a `"Question: ...\nAnswer: ..."` text is never empty. -/
theorem question_text_ne_empty (q a : String) :
    "Question: " ++ q ++ "\nAnswer: " ++ a ≠ "" := by
  intro h
  have hlen := congrArg String.length h
  simp only [String.length_append] at hlen
  have h10 : ("Question: " : String).length = 10 := rfl
  have h0 : ("" : String).length = 0 := rfl
  omega

/-- C3 amended: chunks of the PDF and Markdown chunkers have non-empty
text with no newline and no run of two or more spaces, provided the
recursive splitter only emits pieces containing a non-whitespace
character (its documented behavior: it strips chunks and drops empty
ones); chunks of the structured Q&A chunker have non-empty text, but
that text is the unnormalized `"Question: {q}\nAnswer: {a}"`, which
contains a newline and keeps any space runs inside q and a. -/
theorem chunker_text_invariant
    (splitText : String → List String)
    (hsplit : ∀ s, ∀ c ∈ splitText s, ∃ ch ∈ c.data, isPySpace ch = false)
    (headerSplit : String → List MdDoc) (pages : List String)
    (fileText : String) (qKeys aKeys : List String)
    (jsonData : Except String Json) (tag source : String)
    (docs : List Chunk) :
    (∀ ch ∈ chunking_pdf splitText pages tag source, goodText ch.text) ∧
    (∀ ch ∈ chunking_md headerSplit splitText fileText tag source,
        goodText ch.text) ∧
    (chunking_json qKeys aKeys jsonData tag source = .ok docs →
        ∀ ch ∈ docs, ch.text ≠ "") := by
  refine ⟨?_, ?_, ?_⟩
  · intro ch hch
    obtain ⟨s, c, hc, htext⟩ :=
      pdfLoop_text splitText tag source pages 0 ch hch
    rw [htext]
    exact normalizeChunk_good c (hsplit s c hc)
  · intro ch hch
    obtain ⟨s, c, hc, htext⟩ :=
      chunking_md_text headerSplit splitText fileText tag source ch hch
    rw [htext]
    exact normalizeChunk_good c (hsplit s c hc)
  · intro h ch hch
    cases jsonData with
    | error e => cases h
    | ok data =>
      simp only [chunking_json] at h
      cases hio : itemsOf data with
      | error e => simp only [hio] at h; cases h
      | ok items =>
        simp only [hio] at h
        by_cases he : (qaLoop qKeys aKeys tag source items 1).isEmpty = true
        · rw [if_pos he] at h
          cases h
        · rw [if_neg he] at h
          cases h
          obtain ⟨q, a, hqa⟩ :=
            qaLoop_text qKeys aKeys tag source items 1 ch hch
          rw [hqa]
          exact question_text_ne_empty q a

/-- C3 counterexample: the Q&A chunker emits a chunk whose text contains
a newline and a run of two consecutive spaces (inherited from the
question value), so the all-chunkers invariant "no newline, no space
run" is false on the code. -/
theorem chunker_text_invariant_counterexample :
    chunking_json QUESTION_KEYS ANSWER_KEYS
        (.ok (.obj [("qa", .arr [.obj [("question", .str "x  y"),
          ("answer", .str "z")]])])) "t" "s" =
      .ok [{ text := "Question: x  y\nAnswer: z",
             metadata :=
               { source := "s", location := "Q&A #1", tag := "t" } }] ∧
    '\n' ∈ ("Question: x  y\nAnswer: z" : String).data ∧
    ¬ goodText "Question: x  y\nAnswer: z" :=
  ⟨rfl, by decide, by
    intro hgood
    exact absurd rfl (hgood.2.1 '\n' (by decide))⟩

/-- C3 witness: the amended invariant applied to a one-page PDF split
into one chunk, an empty Markdown document and the one-item Q&A input. -/
theorem chunker_text_invariant_witness :
    (∀ s, ∀ c ∈ (fun _ : String => ["ab cd"]) s,
        ∃ ch ∈ c.data, isPySpace ch = false) ∧
    ((∀ ch ∈ chunking_pdf (fun _ => ["ab cd"]) ["ab  cd"] "t" "s",
        goodText ch.text) ∧
     (∀ ch ∈ chunking_md (fun _ => []) (fun _ => ["ab cd"]) "" "t" "s",
        goodText ch.text) ∧
     (chunking_json QUESTION_KEYS ANSWER_KEYS
          (.ok (.obj [("question", .str "hi"), ("answer", .str "yo")]))
          "t" "s" =
        .ok [{ text := "Question: hi\nAnswer: yo",
               metadata :=
                 { source := "s", location := "Q&A #1", tag := "t" } }] →
        ∀ ch ∈ [{ text := "Question: hi\nAnswer: yo",
                  metadata :=
                    { source := "s", location := "Q&A #1",
                      tag := "t" } : Chunk}], ch.text ≠ "")) :=
  ⟨by intro s c hc
      simp only [List.mem_singleton] at hc
      subst hc
      decide,
   chunker_text_invariant (fun _ => ["ab cd"])
     (by intro s c hc
         simp only [List.mem_singleton] at hc
         subst hc
         decide)
     (fun _ => []) ["ab  cd"] "" QUESTION_KEYS ANSWER_KEYS
     (.ok (.obj [("question", .str "hi"), ("answer", .str "yo")])) "t" "s"
     [{ text := "Question: hi\nAnswer: yo",
        metadata := { source := "s", location := "Q&A #1", tag := "t" } }]⟩
